import Mathlib

/-!
Shallow embedding of `iharm/engine/AICT_trainer.py` (the `Trainer` class).

Modelling conventions:
* Tensors are modelled as lists of rationals (`Val.tensor`); lists of tensors
  as `Val.tlist`.  Device moves (`.to(device)`) and `.cpu()` are the identity.
* Python dicts are association lists (`PyDict`); `d[k]` is `dget`, which is
  fallible (a missing key in Python raises `KeyError`, here it yields `none`
  and the surrounding operation returns `none`).
* Floating point numbers are modelled as rationals, so the weighted-sum
  identities hold exactly.
* Fallible code returns `Option`; a `none` result models an uncaught Python
  exception at that point.
* Loss criterion and metric collaborators are modelled by their declared
  field names plus an opaque function for the actual computation, exactly as
  the trainer consumes them (`pred_outputs`, `gt_outputs`, a callable).
-/

namespace AICT

/-- A tensor-like value: a tensor (line 306 `torch.is_tensor` true) or a list
of tensors (the `else` branch of lines 311-315). -/
inductive Val where
  | tensor (data : List ℚ)
  | tlist (data : List (List ℚ))
deriving DecidableEq

/-- `torch.is_tensor` (line 306). -/
def valIsTensor : Val → Bool
  | .tensor _ => true
  | .tlist _ => false

/-- A Python dict with string keys, as an association list. -/
abbrev PyDict (α : Type) : Type := List (String × α)

/-- `d[k]` / `d.get(k)`: first binding of key `k`. -/
def dget {α : Type} : PyDict α → String → Option α
  | [], _ => none
  | (k, v) :: rest, n => if k = n then some v else dget rest n

/-- `d[k] = v`: overwrite the binding of `k` if present, else append it
(Python dict assignment). -/
def setKey {α : Type} : PyDict α → String → α → PyDict α
  | [], n, v => [(n, v)]
  | (k, u) :: rest, n, v =>
      if k = n then (k, v) :: rest else (k, u) :: setKey rest n v

/-- `losses_logging[name].append(x)` on a `defaultdict(list)` (line 331):
append to the list bound to `name`, creating the entry if absent. -/
def logAppend : PyDict (List ℚ) → String → ℚ → PyDict (List ℚ)
  | [], n, x => [(n, [x])]
  | (k, vs) :: rest, n, x =>
      if k = n then (k, vs ++ [x]) :: rest else (k, vs) :: logAppend rest n x

/-- Does the character list begin with the given pattern? -/
def charListBeginsWith : List Char → List Char → Bool
  | [], _ => true
  | _ :: _, [] => false
  | c :: cs, d :: ds => c == d && charListBeginsWith cs ds

/-- Does the character list contain the pattern as a contiguous run? -/
def charListHasSub (pat : List Char) : List Char → Bool
  | [] => pat.isEmpty
  | c :: rest => charListBeginsWith pat (c :: rest) || charListHasSub pat rest

/-- Python's substring test `sub in s` (line 292 `'image' not in ky`). -/
def strContains (s sub : String) : Bool :=
  charListHasSub sub.toList s.toList

/-- `torch.mean` of a 1-d tensor, as a rational (line 330).  (On an empty
tensor `torch.mean` is NaN; that case is never exercised by the claims.) -/
def qmean (l : List ℚ) : ℚ := l.sum / (l.length : ℚ)

/-- A loss-term collaborator: declared prediction/ground-truth field names and
the callable (which in the source receives `net_outputs.get(x)` — possibly
`None`, hence `Option Val` — for predictions, and `batch_data[x]` for ground
truths), already composed with the tensor flattening so that it returns the
element list whose mean is taken at line 330. -/
structure LossCriterion where
  pred_outputs : List String
  gt_outputs : List String
  call : List (Option Val) → List Val → List ℚ

/-- The loss configuration dict: in the source a single dict holding both the
criterion objects (keyed `name`) and the weights (keyed `name + "_weight"`).
Modelled as the two key families, which the trainer queries disjointly. -/
structure LossCfg where
  crits : PyDict LossCriterion
  weights : PyDict ℚ

/-- `loss_cfg.get(loss_name + '_weight', 0.0)` (line 324). -/
def cfgWeight (c : LossCfg) (loss_name : String) : ℚ :=
  (dget c.weights (loss_name ++ "_weight")).getD 0

/-- A metric collaborator: name, declared field names, its accumulated epoch
state and the opaque update / reset / epoch-value functions. -/
structure Metric where
  name : String
  pred_outputs : List String
  gt_outputs : List String
  state : List ℚ
  updateFn : List Val → List Val → List ℚ → List ℚ
  resetFn : List ℚ → List ℚ
  epochFn : List ℚ → ℚ

/-- The mutable trainer state used by `batch_forward`/`training`:
loss configurations (line 39-40), the network (with its parameters made
explicit), the optimizer state, the opaque effect of one
`zero_grad`/`backward`/`step` sequence (lines 155-157), and the two metric
lists (lines 50-53). -/
structure Trainer where
  loss_cfg : LossCfg
  val_loss_cfg : LossCfg
  net : List ℚ → Val → Val → Val → Val → PyDict Val
  params : List ℚ
  optim : List ℚ
  optim_step : List ℚ × List ℚ → List ℚ × List ℚ
  train_metrics : List Metric
  val_metrics : List Metric

/-- Accumulator threaded through the `add_loss` calls: the running total
(line 333), the log mapping (line 331), and — instrumentation for the
claims — the names of the loss callables actually invoked (line 328). -/
structure LossAcc where
  total : ℚ
  logging : PyDict (List ℚ)
  invoked : List String
deriving DecidableEq

/-- Fetch `d[k]` for every key; `none` on the first missing key
(Python `KeyError`). -/
def fetchVals (d : PyDict Val) : List String → Option (List Val)
  | [] => some []
  | k :: ks =>
    match dget d k with
    | none => none
    | some v => (fetchVals d ks).map (fun vs => v :: vs)

/-- Line 321: `loss_cfg = self.loss_cfg if not validation else self.val_loss_cfg`. -/
def modeCfg (loss_cfg val_loss_cfg : LossCfg) (validation : Bool) : LossCfg :=
  if validation then val_loss_cfg else loss_cfg

/-- `Trainer.add_loss` (lines 320-335).  Selects the mode configuration
(line 321), no-ops when the term name is absent (322-323) or its weight is
not positive (326), otherwise calls the criterion on its declared prediction
fields (taken with `.get` from the outputs) and ground-truth fields (taken
with `[..]` from the batch), takes the mean, logs the unweighted value and
adds the weighted value to the running total (327-333). -/
def add_loss (loss_cfg val_loss_cfg : LossCfg) (loss_name : String) (acc : LossAcc)
    (validation : Bool) (net_outputs batch_data : PyDict Val) : Option LossAcc :=
  match dget (modeCfg loss_cfg val_loss_cfg validation).crits loss_name with
  | none => some acc
  | some crit =>
    if 0 < cfgWeight (modeCfg loss_cfg val_loss_cfg validation) loss_name then
      match fetchVals batch_data crit.gt_outputs with
      | none => none
      | some gts =>
        let v := qmean (crit.call (crit.pred_outputs.map fun x => dget net_outputs x) gts)
        some ⟨acc.total + cfgWeight (modeCfg loss_cfg val_loss_cfg validation) loss_name * v,
              logAppend acc.logging loss_name v, acc.invoked ++ [loss_name]⟩
    else some acc

/-- Lines 291-293: merge every model-output field whose name does not contain
the substring `'image'` back into the batch mapping. -/
def mergeOutputs (batch_data : PyDict Val) : PyDict Val → PyDict Val
  | [] => batch_data
  | (ky, value) :: rest =>
      mergeOutputs (if strContains ky "image" then batch_data else setKey batch_data ky value) rest

/-- Lines 304-315, the field fetches of one metric update: `gt_outputs[0]`
(IndexError if empty), its batch value (KeyError if missing), then all
prediction fields from the outputs and all ground-truth fields from the
batch (each fatal if missing, since `.cpu()` / iteration is applied to the
result).  `.cpu()` is the identity here, so the `torch.is_tensor` branches
coincide. -/
def metricFetch (m : Metric) (output bd : PyDict Val) : Option (List Val × List Val) :=
  (m.gt_outputs.head?).bind fun gk =>
  (dget bd gk).bind fun gv =>
  (fetchVals output m.pred_outputs).bind fun preds =>
  (fetchVals bd m.gt_outputs).bind fun gts =>
  if valIsTensor gv then some (preds, gts) else some (preds, gts)

/-- `metric.update(*preds, *targets)` (lines 307-315): the metric mutates its
accumulated epoch state. -/
def metricUpdate (m : Metric) (output bd : PyDict Val) : Option Metric :=
  (metricFetch m output bd).map fun pg => { m with state := m.updateFn pg.1 pg.2 m.state }

/-- The `for metric in metrics` loop of lines 305-315. -/
def updateMetrics : List Metric → PyDict Val → PyDict Val → Option (List Metric)
  | [], _, _ => some []
  | m :: rest, output, bd =>
    (metricUpdate m output bd).bind fun m2 =>
    (updateMetrics rest output bd).bind fun rest2 =>
    some (m2 :: rest2)

/-- The result of one `batch_forward` call: the returned quadruple
(line 318) plus instrumentation — the loss callables invoked and the
`torch.set_grad_enabled` argument for the step (line 284). -/
structure StepOut where
  loss : ℚ
  losses_logging : PyDict (List ℚ)
  batch_data : PyDict Val
  output : PyDict Val
  invoked : List String
  grad_enabled : Bool
deriving DecidableEq

/-- The metric-free part of `Trainer.batch_forward` (lines 283-302, 318):
device move (identity), the four canonical input fetches (line 286-287,
KeyError if missing), the model call (289), the non-image merge (291-293)
and the six `add_loss` calls (295-302) with the contrastive term guarded by
`not validation` (298-299). -/
def bfPure (loss_cfg val_loss_cfg : LossCfg)
    (netf : List ℚ → Val → Val → Val → Val → PyDict Val) (params : List ℚ)
    (batch_data : PyDict Val) (validation : Bool) : Option StepOut :=
  (dget batch_data "images").bind fun images =>
  (dget batch_data "images_fullres").bind fun images_fullres =>
  (dget batch_data "masks").bind fun masks =>
  (dget batch_data "masks_fullres").bind fun masks_fullres =>
  let output := netf params images images_fullres masks masks_fullres
  let bd := mergeOutputs batch_data output
  (add_loss loss_cfg val_loss_cfg "pixel_loss" ⟨0, [], []⟩ validation output bd).bind fun a1 =>
  (add_loss loss_cfg val_loss_cfg "low_loss" a1 validation output bd).bind fun a2 =>
  (if validation then some a2
   else add_loss loss_cfg val_loss_cfg "contrastive_loss" a2 validation output bd).bind fun a3 =>
  (add_loss loss_cfg val_loss_cfg "color_dis_loss" a3 validation output bd).bind fun a4 =>
  (add_loss loss_cfg val_loss_cfg "coord_dis_loss" a4 validation output bd).bind fun a5 =>
  (add_loss loss_cfg val_loss_cfg "sparse_loss" a5 validation output bd).bind fun a6 =>
  some ⟨a6.total, a6.logging, bd, output, a6.invoked, !validation⟩

/-- `Trainer.batch_forward` (lines 281-318): the metric-free part followed by
the in-place update of the selected metric list (line 282 selects it, lines
304-315 mutate it, so the updated list is written back to the trainer). -/
def batch_forward (tr : Trainer) (batch_data : PyDict Val) (validation : Bool) :
    Option (StepOut × Trainer) :=
  (bfPure tr.loss_cfg tr.val_loss_cfg tr.net tr.params batch_data validation).bind fun r =>
  (updateMetrics (if validation then tr.val_metrics else tr.train_metrics)
      r.output r.batch_data).bind fun ms =>
  some (r, if validation then { tr with val_metrics := ms }
           else { tr with train_metrics := ms })

/-- Keys of a log mapping. -/
def logKeys (L : PyDict (List ℚ)) : List String := L.map Prod.fst

/-- The weighted sum, under a configuration, of all values recorded in a log
mapping: Σ (configured weight of the entry's name) × (sum of its entries).
In a single `batch_forward` every entry list is a singleton holding the
unweighted mean term value. -/
def weightedLogSum (c : LossCfg) (L : PyDict (List ℚ)) : ℚ :=
  (L.map fun p => cfgWeight c p.1 * p.2.sum).sum

/-- The loss-term names `batch_forward` passes to `add_loss` in the given
mode, in call order (lines 296-302). -/
def lossNames (validation : Bool) : List String :=
  if validation then
    ["pixel_loss", "low_loss", "color_dis_loss", "coord_dis_loss", "sparse_loss"]
  else
    ["pixel_loss", "low_loss", "contrastive_loss", "color_dis_loss", "coord_dis_loss",
     "sparse_loss"]

/-- Lines 48-53 of `Trainer.__init__`: the metrics default, the empty
training-metric list, and the validation-metric list built from the
configured metrics plus the optional additional ones (`deepcopy` is the
identity in this pure model).  Returns `(train_metrics, val_metrics)`. -/
def initMetrics (metrics additional_val_metrics : Option (List Metric)) :
    List Metric × List Metric :=
  let metrics := match metrics with
    | none => []
    | some m => m
  let train_metrics : List Metric := []
  let val_metrics := metrics
  let val_metrics := match additional_val_metrics with
    | none => val_metrics
    | some extra => val_metrics ++ extra
  (train_metrics, val_metrics)

/-- One optimizer step (lines 155-157 `zero_grad`/`backward`/`step`), as an
opaque update of the (parameters, optimizer-state) pair. -/
def optimApply (tr : Trainer) : Trainer :=
  { tr with params := (tr.optim_step (tr.params, tr.optim)).1,
            optim := (tr.optim_step (tr.params, tr.optim)).2 }

/-- The resets of lines 145-146 (`for metric in self.train_metrics:
metric.reset_epoch_stats()`). -/
def resetMetrics (ms : List Metric) : List Metric :=
  ms.map fun m => { m with state := m.resetFn m.state }

/-- The batch loop of `Trainer.training` (lines 149-157 of the parts the
claims concern): per batch, `batch_forward` in training mode followed by the
optimizer step.  Returns the final trainer together with the values the
loop-local variables `losses_logging` and `batch_loss` hold after the loop —
i.e. the LAST batch's log mapping and loss.  With no batches those variables
are unbound and the epilogue raises `NameError`, hence `none`. -/
def trainingLoop (tr : Trainer) : List (PyDict Val) → Option (Trainer × PyDict (List ℚ) × ℚ)
  | [] => none
  | [b] =>
    match batch_forward tr b false with
    | none => none
    | some (r, tr2) => some (optimApply tr2, r.losses_logging, r.loss)
  | b :: b2 :: bs =>
    match batch_forward tr b false with
    | none => none
    | some (_, tr2) => trainingLoop (optimApply tr2) (b2 :: bs)

/-- The trainer state reached after running the batch loop over a list of
batches (same loop as `trainingLoop`, keeping only the trainer). -/
def trainingLoopTr (tr : Trainer) : List (PyDict Val) → Option Trainer
  | [] => some tr
  | b :: rest =>
    match batch_forward tr b false with
    | none => none
    | some (_, tr2) => trainingLoopTr (optimApply tr2) rest

/-- `Trainer.training` up to the epilogue: metric resets (145-146) then the
batch loop. -/
def training_run (tr : Trainer) (batches : List (PyDict Val)) :
    Option (Trainer × PyDict (List ℚ) × ℚ) :=
  trainingLoop { tr with train_metrics := resetMetrics tr.train_metrics } batches

/-- The `(tag, value)` pairs written to the summary writer by the rank-0
epilogue of `Trainer.training`: lines 191-194 (one scalar per entry of the
loop-local `losses_logging`, valued `np.array(loss_values).mean()`),
lines 195-197 (`overall` valued `batch_loss`), and lines 207-210 (one scalar
per training metric, valued `get_epoch_value()`).  Tags are abbreviated to
the term name / `"overall"` / `"epoch_" ++ name`; the loss `log_states` and
learning-rate scalars (199-205) are outside the claims and omitted. -/
def trainingEpochEndLogs (tr : Trainer) (batches : List (PyDict Val)) :
    Option (List (String × ℚ)) :=
  match training_run tr batches with
  | none => none
  | some (trF, lastLogging, lastLoss) =>
    some (((lastLogging.map fun p => (p.1, qmean p.2)) ++ [("overall", lastLoss)])
          ++ trF.train_metrics.map fun m => ("epoch_" ++ m.name, m.epochFn m.state))

/-- The best-checkpoint state of the trainer (lines 118-119) together with
the set of checkpoint files on disk.  A checkpoint path is modelled by the
`(epoch, score)` pair embedded in its filename
(`f'{epoch:03d}_{best_psnr:.3f}'`, lines 277-279); the initial path `''` is
`none`. -/
structure BestState where
  best_psnr : ℚ
  best_checkpoint_path : Option (Nat × ℚ)
  disk : List (Nat × ℚ)
deriving DecidableEq

/-- Lines 118-119: `best_psnr = 0`, `best_checkpoint_path = ''`, and an
initially empty checkpoint directory. -/
def initBestState : BestState := ⟨0, none, []⟩

/-- The effect of the guarded deletion of lines 275-276 on the disk: erase
the recorded best path when it exists, otherwise leave the disk unchanged. -/
def removeIfExists (disk : List (Nat × ℚ)) : Option (Nat × ℚ) → List (Nat × ℚ)
  | none => disk
  | some q => if q ∈ disk then disk.erase q else disk

/-- `os.remove`: fails (raises `FileNotFoundError`) when the file is absent. -/
def os_remove (disk : List (Nat × ℚ)) (p : Nat × ℚ) : Option (List (Nat × ℚ)) :=
  if p ∈ disk then some (disk.erase p) else none

/-- Lines 272-279 of `Trainer.validation` (rank 0): `psnr` is
`self.val_metrics[0].get_epoch_value()`.  If it beats the running best, the
best score is updated, the previous best file is deleted — guarded by
`os.path.exists` (line 275; `os.path.exists('')` is false) — and
`save_checkpoint` writes the new file and returns its path. -/
def validation_best_update (epoch : Nat) (psnr : ℚ) (s : BestState) : Option BestState :=
  if psnr > s.best_psnr then
    match s.best_checkpoint_path with
    | none => some ⟨psnr, some (epoch, psnr), s.disk ++ [(epoch, psnr)]⟩
    | some q =>
      if q ∈ s.disk then
        match os_remove s.disk q with
        | none => none
        | some disk2 => some ⟨psnr, some (epoch, psnr), disk2 ++ [(epoch, psnr)]⟩
      else some ⟨psnr, some (epoch, psnr), s.disk ++ [(epoch, psnr)]⟩
  else some s

/-- A sequence of `validation(epoch)` calls on the primary process, keeping
the best-checkpoint state: each element is `(epoch, value of the first
validation metric)`. -/
def validation_runs (s : BestState) : List (Nat × ℚ) → Option BestState
  | [] => some s
  | (e, p) :: rest =>
    match validation_best_update e p s with
    | none => none
    | some s2 => validation_runs s2 rest

/-- A loaded checkpoint bundle (line 414 `torch.load`): the `'model'` entry
is always read (line 418); `'optimizer'`, `'lr_scheduler'` and `'epoch'` are
optional keys (line 419). -/
structure CkptBundle where
  model : List ℚ
  optimizer : Option (List ℚ)
  lr_scheduler : Option (List ℚ)
  epoch : Option Nat
deriving DecidableEq

/-- The trainer state touched by the resume branch of `_load_weights`. -/
structure ResumeState where
  net_sd : List ℚ
  optim_sd : List ℚ
  sched_sd : List ℚ
  start_epoch : Nat
deriving DecidableEq

/-- Lines 414-422 of `Trainer._load_weights` (resume branch, after the
checkpoint file is located): load the model state dict unconditionally, and
restore optimizer state, scheduler state and start epoch (set to the
checkpoint's epoch plus one) only when all three keys are present. -/
def resume_restore (ck : CkptBundle) (s : ResumeState) : ResumeState :=
  let s1 := { s with net_sd := ck.model }
  match ck.optimizer, ck.lr_scheduler, ck.epoch with
  | some o, some l, some e =>
      { s1 with optim_sd := o, sched_sd := l, start_epoch := e + 1 }
  | _, _, _ => s1

/-! ### Concrete fixtures used to witness the theorems -/

/-- Flatten a value to its element list. -/
def valData : Val → List ℚ
  | .tensor d => d
  | .tlist d => d.flatten

/-- A constant loss criterion with no declared fields. -/
def wCrit (q : ℚ) : LossCriterion := ⟨[], [], fun _ _ => [q]⟩

/-- A loss criterion reading the batch field `"targets"`. -/
def wCritTargets : LossCriterion := ⟨[], ["targets"], fun _ gts => (gts.map valData).flatten⟩

/-- A configuration enabling only `pixel_loss` with weight 2. -/
def wCfg : LossCfg := ⟨[("pixel_loss", wCrit 3)], [("pixel_loss_weight", 2)]⟩

/-- A configuration enabling only `contrastive_loss` with weight 1. -/
def wCfgContrastive : LossCfg :=
  ⟨[("contrastive_loss", wCrit 5)], [("contrastive_loss_weight", 1)]⟩

/-- A configuration whose `pixel_loss` reads the batch field `"targets"`. -/
def wCfgTargets : LossCfg := ⟨[("pixel_loss", wCritTargets)], [("pixel_loss_weight", 1)]⟩

/-- A network producing no outputs. -/
def wNet : List ℚ → Val → Val → Val → Val → PyDict Val := fun _ _ _ _ _ => []

/-- A minimal batch holding the four canonical input fields. -/
def wBatch : PyDict Val :=
  [("images", .tensor [0]), ("images_fullres", .tensor [0]),
   ("masks", .tensor [0]), ("masks_fullres", .tensor [0])]

/-- The minimal batch extended with a `"targets"` field. -/
def wBatchT (q : ℚ) : PyDict Val := wBatch ++ [("targets", .tensor [q])]

/-- A trainer with the `pixel_loss`-only configuration and no metrics. -/
def wTrainer : Trainer := ⟨wCfg, wCfg, wNet, [0], [0], fun po => po, [], []⟩

/-- A trainer with the `contrastive_loss`-only configuration and no metrics. -/
def wTrainerC : Trainer := ⟨wCfgContrastive, wCfgContrastive, wNet, [], [], fun po => po, [], []⟩

/-- A trainer whose single loss term reads `"targets"` with weight 1. -/
def wTrainerT : Trainer := ⟨wCfgTargets, wCfgTargets, wNet, [], [], fun po => po, [], []⟩

/-- The step result of `batch_forward wTrainer wBatch false`. -/
def wStepTrain : StepOut := ⟨6, [("pixel_loss", [3])], wBatch, [], ["pixel_loss"], true⟩

/-- The step result of `batch_forward wTrainer wBatch true`. -/
def wStepVal : StepOut := ⟨6, [("pixel_loss", [3])], wBatch, [], ["pixel_loss"], false⟩

/-- The step result of `batch_forward wTrainerC wBatch false`. -/
def wStepContrastive : StepOut :=
  ⟨5, [("contrastive_loss", [5])], wBatch, [], ["contrastive_loss"], true⟩

/-- The step result of `batch_forward wTrainerC wBatch true`: the contrastive
term is skipped even though the validation configuration weights it. -/
def wStepContrastiveVal : StepOut := ⟨0, [], wBatch, [], [], false⟩

/-! ### Helper lemmas -/

theorem dget_eq_none_of_not_mem {α : Type} (L : PyDict α) (k : String)
    (h : k ∉ L.map Prod.fst) : dget L k = none := by
  induction L with
  | nil => rfl
  | cons p rest ih =>
    obtain ⟨m, v⟩ := p
    simp only [List.map_cons, List.mem_cons] at h
    push_neg at h
    rw [dget.eq_def]
    simp only [if_neg (Ne.symm h.1)]
    exact ih h.2

theorem dget_setKey_self {α : Type} (L : PyDict α) (k : String) (v : α) :
    dget (setKey L k v) k = some v := by
  induction L with
  | nil => simp [setKey, dget]
  | cons p rest ih =>
    obtain ⟨m, u⟩ := p
    by_cases hm : m = k
    · simp [setKey, dget, hm]
    · simp [setKey, dget, hm, ih]

theorem dget_setKey_other {α : Type} (L : PyDict α) (k k' : String) (v : α)
    (h : k' ≠ k) : dget (setKey L k v) k' = dget L k' := by
  induction L with
  | nil => simp [setKey, dget, Ne.symm h]
  | cons p rest ih =>
    obtain ⟨m, u⟩ := p
    by_cases hm : m = k
    · subst hm
      simp [setKey, dget, Ne.symm h]
    · simp [setKey, dget, hm, ih]

theorem logAppend_fresh (L : PyDict (List ℚ)) (n : String) (x : ℚ)
    (h : n ∉ logKeys L) : logAppend L n x = L ++ [(n, [x])] := by
  induction L with
  | nil => rfl
  | cons p rest ih =>
    obtain ⟨m, vs⟩ := p
    simp only [logKeys, List.map_cons, List.mem_cons] at h
    push_neg at h
    rw [logAppend.eq_def]
    simp only [if_neg (Ne.symm h.1), List.cons_append, List.cons.injEq, true_and]
    exact ih h.2

theorem weightedLogSum_append (c : LossCfg) (L1 L2 : PyDict (List ℚ)) :
    weightedLogSum c (L1 ++ L2) = weightedLogSum c L1 + weightedLogSum c L2 := by
  simp [weightedLogSum]

theorem weightedLogSum_nil (c : LossCfg) : weightedLogSum c [] = 0 := rfl

theorem weightedLogSum_single (c : LossCfg) (n : String) (x : ℚ) :
    weightedLogSum c [(n, [x])] = cfgWeight c n * x := by
  simp [weightedLogSum]

/-- Case analysis for a successful `add_loss`: either the term was disabled
(absent or non-positive weight) and nothing changed, or it was enabled and
the accumulator gained weight × mean, a fresh singleton log value, and an
invocation record. -/
theorem add_loss_cases (cfg vcfg : LossCfg) (n : String) (acc : LossAcc) (val : Bool)
    (o b : PyDict Val) (acc' : LossAcc)
    (h : add_loss cfg vcfg n acc val o b = some acc') :
    acc' = acc ∨
    ∃ v, 0 < cfgWeight (modeCfg cfg vcfg val) n ∧
      acc' = ⟨acc.total + cfgWeight (modeCfg cfg vcfg val) n * v,
              logAppend acc.logging n v, acc.invoked ++ [n]⟩ := by
  unfold add_loss at h
  split at h
  · left
    exact (Option.some.inj h).symm
  · split at h
    · split at h
      · simp at h
      · right
        exact ⟨_, by assumption, (Option.some.inj h).symm⟩
    · left
      exact (Option.some.inj h).symm

/-- A successful enabled `add_loss` (term present with positive weight)
always invokes the callable and logs under the term's name. -/
theorem add_loss_pos (cfg vcfg : LossCfg) (n : String) (acc : LossAcc) (val : Bool)
    (o b : PyDict Val) (acc' : LossAcc) (crit : LossCriterion)
    (hc : dget (modeCfg cfg vcfg val).crits n = some crit)
    (hw : 0 < cfgWeight (modeCfg cfg vcfg val) n)
    (h : add_loss cfg vcfg n acc val o b = some acc') :
    ∃ v, acc' = ⟨acc.total + cfgWeight (modeCfg cfg vcfg val) n * v,
                 logAppend acc.logging n v, acc.invoked ++ [n]⟩ := by
  unfold add_loss at h
  split at h
  · rename_i heq
    rw [hc] at heq
    simp at heq
  · rename_i crit2 heq
    rw [if_pos hw] at h
    split at h
    · simp at h
    · exact ⟨_, (Option.some.inj h).symm⟩

/-- The invariant carried through the chain of `add_loss` calls inside
`batch_forward`: the running total is the weighted sum of the log mapping,
every log entry is a singleton, and log keys and invocations stay within the
names used so far. -/
theorem add_loss_step (cfg vcfg : LossCfg) (n : String) (acc : LossAcc) (val : Bool)
    (o b : PyDict Val) (acc' : LossAcc) (allowed : List String)
    (h : add_loss cfg vcfg n acc val o b = some acc')
    (hks : logKeys acc.logging ⊆ allowed)
    (hinv : acc.invoked ⊆ allowed)
    (hn : n ∉ allowed)
    (htot : acc.total = weightedLogSum (modeCfg cfg vcfg val) acc.logging)
    (hsing : ∀ p ∈ acc.logging, p.2.length = 1) :
    acc'.total = weightedLogSum (modeCfg cfg vcfg val) acc'.logging ∧
    (∀ p ∈ acc'.logging, p.2.length = 1) ∧
    logKeys acc'.logging ⊆ allowed ++ [n] ∧
    acc'.invoked ⊆ allowed ++ [n] ∧
    acc.invoked ⊆ acc'.invoked := by
  rcases add_loss_cases cfg vcfg n acc val o b acc' h with heq | ⟨v, hw, heq⟩
  · subst heq
    refine ⟨htot, hsing, fun x hx => List.mem_append_left _ (hks hx),
      fun x hx => List.mem_append_left _ (hinv hx), fun x hx => hx⟩
  · subst heq
    have hfresh : n ∉ logKeys acc.logging := fun hm => hn (hks hm)
    have happ := logAppend_fresh acc.logging n v hfresh
    refine ⟨?_, ?_, ?_, ?_, ?_⟩
    · simp only [happ, weightedLogSum_append, weightedLogSum_single, htot]
    · intro p hp
      rw [happ] at hp
      rcases List.mem_append.mp hp with hp1 | hp2
      · exact hsing p hp1
      · simp only [List.mem_singleton] at hp2
        subst hp2
        rfl
    · intro x hx
      rw [happ] at hx
      simp only [logKeys, List.map_append, List.map_cons, List.map_nil] at hx
      rcases List.mem_append.mp hx with hx1 | hx2
      · exact List.mem_append_left _ (hks hx1)
      · exact List.mem_append_right _ hx2
    · intro x hx
      simp only at hx
      rcases List.mem_append.mp hx with hx1 | hx2
      · exact List.mem_append_left _ (hinv hx1)
      · exact List.mem_append_right _ hx2
    · intro x hx
      exact List.mem_append_left _ hx

theorem logKeys_logAppend_self (L : PyDict (List ℚ)) (n : String) (x : ℚ) :
    n ∈ logKeys (logAppend L n x) := by
  induction L with
  | nil => simp [logAppend, logKeys]
  | cons p rest ih =>
    obtain ⟨m, vs⟩ := p
    by_cases hm : m = n
    · simp [logAppend, hm, logKeys]
    · simp only [logAppend, if_neg hm, logKeys, List.map_cons, List.mem_cons]
      exact Or.inr ih

theorem logKeys_logAppend_sup (L : PyDict (List ℚ)) (n : String) (x : ℚ) :
    logKeys L ⊆ logKeys (logAppend L n x) := by
  induction L with
  | nil => simp [logKeys]
  | cons p rest ih =>
    obtain ⟨m, vs⟩ := p
    by_cases hm : m = n
    · simp [logAppend, hm, logKeys]
    · simp only [logAppend, if_neg hm, logKeys, List.map_cons]
      intro y hy
      rcases List.mem_cons.mp hy with hy1 | hy2
      · exact List.mem_cons.mpr (Or.inl hy1)
      · exact List.mem_cons.mpr (Or.inr (ih hy2))

/-- A successful `add_loss` preserves membership in the invocation list and
in the log keys. -/
theorem add_loss_mem_preserved (cfg vcfg : LossCfg) (n : String) (acc : LossAcc)
    (val : Bool) (o b : PyDict Val) (acc' : LossAcc) (k : String)
    (h : add_loss cfg vcfg n acc val o b = some acc') :
    (k ∈ acc.invoked → k ∈ acc'.invoked) ∧
    (k ∈ logKeys acc.logging → k ∈ logKeys acc'.logging) := by
  rcases add_loss_cases cfg vcfg n acc val o b acc' h with heq | ⟨v, hw, heq⟩
  · subst heq
    exact ⟨id, id⟩
  · subst heq
    exact ⟨fun hk => List.mem_append_left _ hk,
           fun hk => logKeys_logAppend_sup acc.logging n v hk⟩

/-- All structural facts about a successful metric-free `batch_forward` pass:
the returned loss is the weighted sum of the log mapping under the
mode-appropriate configuration, every log entry is a singleton mean value,
log keys and invoked criteria are among the mode's term names, the gradient
flag is the negation of `validation`, and in training mode a configured
positive-weight contrastive term is always invoked and logged. -/
theorem bfPure_props (cfg vcfg : LossCfg)
    (netf : List ℚ → Val → Val → Val → Val → PyDict Val) (params : List ℚ)
    (bd : PyDict Val) (val : Bool) (r : StepOut)
    (h : bfPure cfg vcfg netf params bd val = some r) :
    r.loss = weightedLogSum (modeCfg cfg vcfg val) r.losses_logging ∧
    (∀ p ∈ r.losses_logging, p.2.length = 1) ∧
    logKeys r.losses_logging ⊆ lossNames val ∧
    r.invoked ⊆ lossNames val ∧
    r.grad_enabled = !val ∧
    (∀ crit, val = false → dget cfg.crits "contrastive_loss" = some crit →
      0 < cfgWeight cfg "contrastive_loss" →
      "contrastive_loss" ∈ r.invoked ∧ "contrastive_loss" ∈ logKeys r.losses_logging) := by
  simp only [bfPure, Option.bind_eq_some] at h
  obtain ⟨images, h1, ifr, h2, mks, h3, mkf, h4, a1, ha1, a2, ha2, a3, ha3,
    a4, ha4, a5, ha5, a6, ha6, heq⟩ := h
  have heq2 := Option.some.inj heq
  subst heq2
  cases val with
  | false =>
    rw [if_neg (by simp)] at ha3
    have s1 := add_loss_step _ _ _ _ _ _ _ _ [] ha1
      (by simp [logKeys]) (by simp) (by simp) rfl (by simp)
    have s2 := add_loss_step _ _ _ _ _ _ _ _ ["pixel_loss"] ha2
      s1.2.2.1 s1.2.2.2.1 (by decide) s1.1 s1.2.1
    have s3 := add_loss_step _ _ _ _ _ _ _ _ ["pixel_loss", "low_loss"] ha3
      s2.2.2.1 s2.2.2.2.1 (by decide) s2.1 s2.2.1
    have s4 := add_loss_step _ _ _ _ _ _ _ _
      ["pixel_loss", "low_loss", "contrastive_loss"] ha4
      s3.2.2.1 s3.2.2.2.1 (by decide) s3.1 s3.2.1
    have s5 := add_loss_step _ _ _ _ _ _ _ _
      ["pixel_loss", "low_loss", "contrastive_loss", "color_dis_loss"] ha5
      s4.2.2.1 s4.2.2.2.1 (by decide) s4.1 s4.2.1
    have s6 := add_loss_step _ _ _ _ _ _ _ _
      ["pixel_loss", "low_loss", "contrastive_loss", "color_dis_loss", "coord_dis_loss"] ha6
      s5.2.2.1 s5.2.2.2.1 (by decide) s5.1 s5.2.1
    refine ⟨s6.1, s6.2.1, s6.2.2.1, s6.2.2.2.1, rfl, ?_⟩
    intro crit _ hc hw
    have hc' : dget (modeCfg cfg vcfg false).crits "contrastive_loss" = some crit := by
      simpa [modeCfg] using hc
    have hw' : 0 < cfgWeight (modeCfg cfg vcfg false) "contrastive_loss" := by
      simpa [modeCfg] using hw
    obtain ⟨v, heq3⟩ := add_loss_pos _ _ _ _ _ _ _ _ crit hc' hw' ha3
    have hmem3 : "contrastive_loss" ∈ a3.invoked := by
      rw [heq3]
      exact List.mem_append_right _ (by simp)
    have hkey3 : "contrastive_loss" ∈ logKeys a3.logging := by
      rw [heq3]
      exact logKeys_logAppend_self _ _ _
    have p4 := add_loss_mem_preserved _ _ _ _ _ _ _ _ "contrastive_loss" ha4
    have p5 := add_loss_mem_preserved _ _ _ _ _ _ _ _ "contrastive_loss" ha5
    have p6 := add_loss_mem_preserved _ _ _ _ _ _ _ _ "contrastive_loss" ha6
    exact ⟨p6.1 (p5.1 (p4.1 hmem3)), p6.2 (p5.2 (p4.2 hkey3))⟩
  | true =>
    rw [if_pos rfl] at ha3
    have heq3 := Option.some.inj ha3
    subst heq3
    have s1 := add_loss_step _ _ _ _ _ _ _ _ [] ha1
      (by simp [logKeys]) (by simp) (by simp) rfl (by simp)
    have s2 := add_loss_step _ _ _ _ _ _ _ _ ["pixel_loss"] ha2
      s1.2.2.1 s1.2.2.2.1 (by decide) s1.1 s1.2.1
    have s4 := add_loss_step _ _ _ _ _ _ _ _ ["pixel_loss", "low_loss"] ha4
      s2.2.2.1 s2.2.2.2.1 (by decide) s2.1 s2.2.1
    have s5 := add_loss_step _ _ _ _ _ _ _ _
      ["pixel_loss", "low_loss", "color_dis_loss"] ha5
      s4.2.2.1 s4.2.2.2.1 (by decide) s4.1 s4.2.1
    have s6 := add_loss_step _ _ _ _ _ _ _ _
      ["pixel_loss", "low_loss", "color_dis_loss", "coord_dis_loss"] ha6
      s5.2.2.1 s5.2.2.2.1 (by decide) s5.1 s5.2.1
    refine ⟨s6.1, s6.2.1, s6.2.2.1, s6.2.2.2.1, rfl, ?_⟩
    intro crit hcontra
    exact absurd hcontra (by simp)

theorem metricFetch_state (m : Metric) (s : List ℚ) (o b : PyDict Val) :
    metricFetch { m with state := s } o b = metricFetch m o b := rfl

theorem metricUpdate_shape (m : Metric) (o b : PyDict Val) (m2 : Metric)
    (h : metricUpdate m o b = some m2) : ∃ s, m2 = { m with state := s } := by
  unfold metricUpdate at h
  cases hf : metricFetch m o b with
  | none => rw [hf] at h; simp at h
  | some pg =>
    rw [hf] at h
    simp only [Option.map_some'] at h
    exact ⟨_, (Option.some.inj h).symm⟩

theorem metricUpdate_again (m : Metric) (o b : PyDict Val) (m2 : Metric)
    (h : metricUpdate m o b = some m2) : (metricUpdate m2 o b).isSome := by
  obtain ⟨s, rfl⟩ := metricUpdate_shape m o b m2 h
  unfold metricUpdate at h ⊢
  rw [metricFetch_state]
  cases hf : metricFetch m o b with
  | none => rw [hf] at h; simp at h
  | some pg => simp

theorem updateMetrics_again (ms : List Metric) (o b : PyDict Val) (ms2 : List Metric)
    (h : updateMetrics ms o b = some ms2) : (updateMetrics ms2 o b).isSome := by
  induction ms generalizing ms2 with
  | nil =>
    simp only [updateMetrics] at h
    rw [← Option.some.inj h]
    simp [updateMetrics]
  | cons m rest ih =>
    simp only [updateMetrics, Option.bind_eq_some] at h
    obtain ⟨m2, hm2, rest2, hrest2, heq⟩ := h
    rw [← Option.some.inj heq]
    obtain ⟨m3, hm3⟩ := Option.isSome_iff_exists.mp (metricUpdate_again m o b m2 hm2)
    obtain ⟨rest3, hrest3⟩ := Option.isSome_iff_exists.mp (ih rest2 hrest2)
    simp [updateMetrics, Option.bind_eq_some, hm3, hrest3]

/-- Decomposition of a successful `batch_forward` into its metric-free pass
and the metric update, recovering how the returned trainer was formed. -/
theorem batch_forward_parts (tr : Trainer) (bd : PyDict Val) (val : Bool)
    (r : StepOut) (tr2 : Trainer)
    (h : batch_forward tr bd val = some (r, tr2)) :
    bfPure tr.loss_cfg tr.val_loss_cfg tr.net tr.params bd val = some r ∧
    ∃ ms, updateMetrics (if val then tr.val_metrics else tr.train_metrics)
            r.output r.batch_data = some ms ∧
      tr2 = (if val then { tr with val_metrics := ms }
             else { tr with train_metrics := ms }) := by
  simp only [batch_forward, Option.bind_eq_some] at h
  obtain ⟨r0, hp, ms, hm, heq⟩ := h
  have heq2 := Option.some.inj heq
  injection heq2 with e1 e2
  subst e1
  exact ⟨hp, ms, hm, e2.symm⟩

/-- `optimApply` leaves everything but the parameters and optimizer state
unchanged. -/
theorem optimApply_train_metrics (tr : Trainer) :
    (optimApply tr).train_metrics = tr.train_metrics := rfl

/-- In training mode with an empty training-metric list, `batch_forward`
performs zero metric updates: the metric lists come back unchanged. -/
theorem batch_forward_false_nil_metrics (tr : Trainer) (bd : PyDict Val)
    (r : StepOut) (tr2 : Trainer) (he : tr.train_metrics = [])
    (h : batch_forward tr bd false = some (r, tr2)) :
    tr2.train_metrics = [] ∧ tr2.val_metrics = tr.val_metrics := by
  obtain ⟨hp, ms, hm, htr2⟩ := batch_forward_parts tr bd false r tr2 h
  simp only [if_neg (by simp : ¬ (false = true))] at hm htr2
  rw [he] at hm
  simp only [updateMetrics] at hm
  have hms := Option.some.inj hm
  subst htr2
  rw [← hms]
  exact ⟨rfl, rfl⟩

/-- The final trainer of the training batch loop keeps an empty
training-metric list. -/
theorem trainingLoop_nil_metrics (bs : List (PyDict Val)) :
    ∀ (tr : Trainer) (res : Trainer × PyDict (List ℚ) × ℚ),
      tr.train_metrics = [] → trainingLoop tr bs = some res →
      res.1.train_metrics = [] := by
  induction bs with
  | nil =>
    intro tr res he h
    simp [trainingLoop] at h
  | cons b rest ih =>
    intro tr res he h
    cases rest with
    | nil =>
      simp only [trainingLoop] at h
      split at h
      · simp at h
      · rename_i r tr2 hb
        have h2 := (batch_forward_false_nil_metrics tr b r tr2 he hb).1
        rw [← Option.some.inj h]
        simpa [optimApply_train_metrics] using h2
    | cons b2 bs2 =>
      simp only [trainingLoop] at h
      split at h
      · simp at h
      · rename_i r tr2 hb
        have h2 := (batch_forward_false_nil_metrics tr b r tr2 he hb).1
        exact ih (optimApply tr2) res (by simpa [optimApply_train_metrics] using h2) h

/-- Peeling the last batch off the training loop: the loop's final
`losses_logging`/`batch_loss` are exactly the last batch's `batch_forward`
results, run from the state reached after all earlier batches. -/
theorem trainingLoop_append (bs : List (PyDict Val)) (b : PyDict Val) :
    ∀ tr : Trainer,
      trainingLoop tr (bs ++ [b]) =
        match trainingLoopTr tr bs with
        | none => none
        | some trL =>
          match batch_forward trL b false with
          | none => none
          | some (r, tr2) => some (optimApply tr2, r.losses_logging, r.loss) := by
  induction bs with
  | nil =>
    intro tr
    simp only [List.nil_append, trainingLoopTr]
    cases hb : batch_forward tr b false with
    | none => simp [trainingLoop, hb]
    | some p =>
      obtain ⟨r, tr2⟩ := p
      simp [trainingLoop, hb]
  | cons b0 rest ih =>
    intro tr
    cases hb0 : batch_forward tr b0 false with
    | none =>
      cases rest with
      | nil => simp [trainingLoop, trainingLoopTr, hb0]
      | cons b1 bs1 => simp [trainingLoop, trainingLoopTr, hb0]
    | some p =>
      obtain ⟨r0, tr20⟩ := p
      have hl : trainingLoop tr ((b0 :: rest) ++ [b]) =
          trainingLoop (optimApply tr20) (rest ++ [b]) := by
        cases rest with
        | nil => simp [trainingLoop, hb0]
        | cons b1 bs1 => simp [trainingLoop, hb0]
      have hr : trainingLoopTr tr (b0 :: rest) = trainingLoopTr (optimApply tr20) rest := by
        simp [trainingLoopTr, hb0]
      rw [hl, hr, ih]

theorem validation_best_update_le (e : Nat) (p : ℚ) (s : BestState)
    (h : ¬ p > s.best_psnr) : validation_best_update e p s = some s := by
  simp [validation_best_update, h]

theorem validation_best_update_gt (e : Nat) (p : ℚ) (s : BestState) (s2 : BestState)
    (hgt : p > s.best_psnr) (h : validation_best_update e p s = some s2) :
    s2.best_psnr = p ∧ s2.best_checkpoint_path = some (e, p) ∧
    s2.disk = removeIfExists s.disk s.best_checkpoint_path ++ [(e, p)] := by
  unfold validation_best_update at h
  rw [if_pos hgt] at h
  split at h
  · rename_i hq
    rw [← Option.some.inj h]
    simp [removeIfExists, hq]
  · rename_i q hq
    split at h
    · rename_i hmem
      unfold os_remove at h
      rw [if_pos hmem] at h
      rw [← Option.some.inj h]
      simp [removeIfExists, hq, hmem]
    · rename_i hmem
      rw [← Option.some.inj h]
      simp [removeIfExists, hq, hmem]

theorem validation_best_update_best (e : Nat) (p : ℚ) (s : BestState) (s2 : BestState)
    (h : validation_best_update e p s = some s2) :
    s2.best_psnr = max s.best_psnr p := by
  by_cases hgt : p > s.best_psnr
  · have := (validation_best_update_gt e p s s2 hgt h).1
    rw [this, max_eq_right hgt.le]
  · rw [validation_best_update_le e p s hgt] at h
    rw [← Option.some.inj h, max_eq_left (not_lt.mp hgt)]

theorem validation_runs_best (runs : List (Nat × ℚ)) :
    ∀ (s s' : BestState), validation_runs s runs = some s' →
      s'.best_psnr = (runs.map Prod.snd).foldl max s.best_psnr := by
  induction runs with
  | nil =>
    intro s s' h
    simp only [validation_runs] at h
    rw [← Option.some.inj h]
    simp
  | cons ep rest ih =>
    intro s s' h
    obtain ⟨e, p⟩ := ep
    simp only [validation_runs] at h
    split at h
    · simp at h
    · rename_i s2 heq
      have hbest := validation_best_update_best e p s s2 heq
      rw [ih s2 s' h, hbest]
      simp

/-! ### Claims -/

/-- C1: for every successful `batch_forward`, the returned loss equals the
sum, over all loss terms recorded in the log mapping, of the configured
weight (in the mode-appropriate configuration) times the unweighted mean
term value recorded there; every log entry holds exactly one mean value, and
when no terms are enabled (empty log) the returned loss is the initial 0.0. -/
theorem c1_loss_is_weighted_sum_of_logs (tr : Trainer) (bd : PyDict Val)
    (validation : Bool) (r : StepOut) (tr2 : Trainer)
    (h : batch_forward tr bd validation = some (r, tr2)) :
    r.loss = weightedLogSum (modeCfg tr.loss_cfg tr.val_loss_cfg validation)
      r.losses_logging ∧
    (∀ p ∈ r.losses_logging, p.2.length = 1) ∧
    (r.losses_logging = [] → r.loss = 0) := by
  obtain ⟨hp, _, _, _⟩ := batch_forward_parts tr bd validation r tr2 h
  have props := bfPure_props _ _ _ _ _ _ _ hp
  refine ⟨props.1, props.2.1, ?_⟩
  intro he
  rw [props.1, he, weightedLogSum_nil]

/-- Witness for C1 at a concrete trainer and batch. -/
theorem c1_loss_is_weighted_sum_of_logs_witness :
    wStepTrain.loss = weightedLogSum (modeCfg wTrainer.loss_cfg wTrainer.val_loss_cfg false)
      wStepTrain.losses_logging :=
  (c1_loss_is_weighted_sum_of_logs wTrainer wBatch false wStepTrain wTrainer (by
    simp [batch_forward, bfPure, wTrainer, wNet, wBatch, wStepTrain, add_loss, wCfg, wCrit,
      dget, cfgWeight, modeCfg, fetchVals, qmean, logAppend, mergeOutputs, updateMetrics,
      Option.bind]
    norm_num)).1

/-- C2: `add_loss` is a no-op for a term that is absent from the
mode-appropriate configuration or whose configured weight is not positive:
the accumulator (running total, log mapping, and invoked-callables record)
comes back unchanged. -/
theorem c2_disabled_term_is_noop (loss_cfg val_loss_cfg : LossCfg) (loss_name : String)
    (acc : LossAcc) (validation : Bool) (net_outputs batch_data : PyDict Val)
    (h : dget (modeCfg loss_cfg val_loss_cfg validation).crits loss_name = none ∨
         cfgWeight (modeCfg loss_cfg val_loss_cfg validation) loss_name ≤ 0) :
    add_loss loss_cfg val_loss_cfg loss_name acc validation net_outputs batch_data =
      some acc := by
  cases hc : dget (modeCfg loss_cfg val_loss_cfg validation).crits loss_name with
  | none => simp [add_loss, hc]
  | some crit =>
    rcases h with hab | hw
    · rw [hab] at hc
      exact absurd hc (by simp)
    · have hw' : ¬ 0 < cfgWeight (modeCfg loss_cfg val_loss_cfg validation) loss_name :=
        not_lt.mpr hw
      simp [add_loss, hc, hw']

/-- Witness for C2: a term absent from the configuration changes nothing. -/
theorem c2_disabled_term_is_noop_witness :
    add_loss wCfg wCfg "low_loss" ⟨1, [], []⟩ false [] wBatch = some ⟨1, [], []⟩ :=
  c2_disabled_term_is_noop wCfg wCfg "low_loss" ⟨1, [], []⟩ false [] wBatch
    (Or.inl (by simp [wCfg, modeCfg, dget]))

/-- C6: `batch_forward` with `validation = true` never invokes or logs the
contrastive term — whatever weight the validation configuration assigns it —
while with `validation = false` a configured positive-weight contrastive
term is always invoked and logged. -/
theorem c6_contrastive_training_only (tr : Trainer) (bd : PyDict Val) :
    (∀ (r : StepOut) (tr2 : Trainer), batch_forward tr bd true = some (r, tr2) →
        dget r.losses_logging "contrastive_loss" = none ∧
        "contrastive_loss" ∉ r.invoked) ∧
    (∀ (r : StepOut) (tr2 : Trainer) (crit : LossCriterion),
        dget tr.loss_cfg.crits "contrastive_loss" = some crit →
        0 < cfgWeight tr.loss_cfg "contrastive_loss" →
        batch_forward tr bd false = some (r, tr2) →
        "contrastive_loss" ∈ r.invoked ∧
        "contrastive_loss" ∈ logKeys r.losses_logging) := by
  constructor
  · intro r tr2 h
    obtain ⟨hp, _, _, _⟩ := batch_forward_parts tr bd true r tr2 h
    have props := bfPure_props _ _ _ _ _ _ _ hp
    constructor
    · apply dget_eq_none_of_not_mem
      intro hmem
      have hin := props.2.2.1 hmem
      simp [lossNames] at hin
    · intro hmem
      have hin := props.2.2.2.1 hmem
      simp [lossNames] at hin
  · intro r tr2 crit hc hw h
    obtain ⟨hp, _, _, _⟩ := batch_forward_parts tr bd false r tr2 h
    have props := bfPure_props _ _ _ _ _ _ _ hp
    exact props.2.2.2.2.2 crit rfl hc hw

/-- Witness for C6: with the contrastive term weighted 1 in both
configurations, a validation pass skips it and a training pass runs it. -/
theorem c6_contrastive_training_only_witness :
    "contrastive_loss" ∉ wStepContrastiveVal.invoked ∧
    "contrastive_loss" ∈ wStepContrastive.invoked :=
  ⟨((c6_contrastive_training_only wTrainerC wBatch).1 wStepContrastiveVal wTrainerC (by
      simp [batch_forward, bfPure, wTrainerC, wNet, wBatch, wStepContrastiveVal, add_loss,
        wCfgContrastive, wCrit, dget, cfgWeight, modeCfg, fetchVals, qmean, logAppend,
        mergeOutputs, updateMetrics, Option.bind])).2,
   ((c6_contrastive_training_only wTrainerC wBatch).2 wStepContrastive wTrainerC (wCrit 5)
      (by simp [wTrainerC, wCfgContrastive, dget])
      (by simp [wTrainerC, wCfgContrastive, cfgWeight, dget])
      (by
        simp [batch_forward, bfPure, wTrainerC, wNet, wBatch, wStepContrastive, add_loss,
          wCfgContrastive, wCrit, dget, cfgWeight, modeCfg, fetchVals, qmean, logAppend,
          mergeOutputs, updateMetrics, Option.bind])).1⟩

/-- C7: a validation-mode `batch_forward` runs the whole step with gradient
tracking disabled and leaves the model parameters and optimizer state (and
the training metrics) untouched; repeating the call from the returned state
yields the identical step result, with the metric accumulators fed the same
output/batch arguments. -/
theorem c7_validation_frame (tr : Trainer) (bd : PyDict Val) (r1 : StepOut) (tr1 : Trainer)
    (h : batch_forward tr bd true = some (r1, tr1)) :
    tr1.params = tr.params ∧ tr1.optim = tr.optim ∧ tr1.net = tr.net ∧
    tr1.train_metrics = tr.train_metrics ∧ r1.grad_enabled = false ∧
    ∃ tr2 : Trainer, batch_forward tr1 bd true = some (r1, tr2) ∧
      tr2.params = tr.params ∧ tr2.optim = tr.optim ∧
      updateMetrics tr1.val_metrics r1.output r1.batch_data = some tr2.val_metrics := by
  obtain ⟨hp, ms, hm, htr1⟩ := batch_forward_parts tr bd true r1 tr1 h
  rw [if_pos rfl] at htr1
  rw [if_pos rfl] at hm
  subst htr1
  have props := bfPure_props _ _ _ _ _ _ _ hp
  refine ⟨rfl, rfl, rfl, rfl, props.2.2.2.2.1, ?_⟩
  obtain ⟨ms2, hm2⟩ := Option.isSome_iff_exists.mp (updateMetrics_again _ _ _ _ hm)
  refine ⟨{ tr with val_metrics := ms2 }, ?_, rfl, rfl, hm2⟩
  have hrw : batch_forward { tr with val_metrics := ms } bd true =
      (bfPure tr.loss_cfg tr.val_loss_cfg tr.net tr.params bd true).bind fun r =>
      (updateMetrics ms r.output r.batch_data).bind fun ms' =>
      some (r, { tr with val_metrics := ms' }) := rfl
  rw [hrw, hp, Option.some_bind, hm2, Option.some_bind]

/-- Witness for C7: the concrete validation pass has its gradient flag off. -/
theorem c7_validation_frame_witness : wStepVal.grad_enabled = false :=
  (c7_validation_frame wTrainer wBatch wStepVal wTrainer (by
    simp [batch_forward, bfPure, wTrainer, wNet, wBatch, wStepVal, add_loss, wCfg, wCrit,
      dget, cfgWeight, modeCfg, fetchVals, qmean, logAppend, mergeOutputs, updateMetrics,
      Option.bind]
    norm_num)).2.2.2.2.1

/-- C3: across any sequence of primary-process validation calls from the
initial state, `best_psnr` is the maximum of its initial value 0 and all
first-metric epoch values seen so far; the best checkpoint is replaced —
old file removed when present, a new file `(epoch, score)` saved, the best
path updated — exactly when the new value strictly exceeds the previous
best; in particular scores 30.0 then 25.0 keep the epoch-1 checkpoint. -/
theorem c3_best_checkpoint_policy (runs : List (Nat × ℚ)) (s' : BestState)
    (h : validation_runs initBestState runs = some s') :
    s'.best_psnr = (runs.map Prod.snd).foldl max 0 ∧
    (∀ (e : Nat) (p : ℚ) (s : BestState), ¬ p > s.best_psnr →
        validation_best_update e p s = some s) ∧
    (∀ (e : Nat) (p : ℚ) (s s2 : BestState), p > s.best_psnr →
        validation_best_update e p s = some s2 →
        s2.best_psnr = p ∧ s2.best_checkpoint_path = some (e, p) ∧
        s2.disk = removeIfExists s.disk s.best_checkpoint_path ++ [(e, p)]) ∧
    validation_runs initBestState [(1, 30), (2, 25)] =
      some ⟨30, some (1, 30), [(1, 30)]⟩ := by
  refine ⟨?_, validation_best_update_le, validation_best_update_gt, by decide⟩
  have hfold := validation_runs_best runs initBestState s' h
  simpa [initBestState] using hfold

/-- Witness for C3 on the two-epoch scenario 30.0 then 25.0. -/
theorem c3_best_checkpoint_policy_witness :
    (⟨30, some (1, 30), [(1, 30)]⟩ : BestState).best_psnr =
      ([((1 : Nat), (30 : ℚ)), (2, 25)].map Prod.snd).foldl max 0 :=
  (c3_best_checkpoint_policy [(1, 30), (2, 25)] ⟨30, some (1, 30), [(1, 30)]⟩ (by decide)).1

/-- C5 counterexample: with a recorded best path whose file is already gone
from disk and a new best score arriving, `validation(epoch)` does NOT raise:
it skips the deletion and saves the new best checkpoint. -/
theorem c5_counterexample :
    validation_best_update 2 35 ⟨30, some (1, 30), []⟩ =
      some ⟨35, some (2, 35), [(2, 35)]⟩ ∧
    (validation_best_update 2 35 ⟨30, some (1, 30), []⟩).isSome = true := by
  constructor <;> decide

/-- C5 amended: the deletion of the previous best checkpoint is guarded by an
existence check, so the update never fails; in particular when the recorded
best file has already been removed from disk, deletion is skipped and the
new best checkpoint is still saved. -/
theorem c5_deletion_guarded (e : Nat) (p : ℚ) (s : BestState) :
    (validation_best_update e p s).isSome = true ∧
    (∀ q : Nat × ℚ, p > s.best_psnr → s.best_checkpoint_path = some q → q ∉ s.disk →
      validation_best_update e p s = some ⟨p, some (e, p), s.disk ++ [(e, p)]⟩) := by
  constructor
  · by_cases hgt : p > s.best_psnr
    · unfold validation_best_update
      rw [if_pos hgt]
      split
      · simp
      · rename_i q hq
        by_cases hmem : q ∈ s.disk
        · rw [if_pos hmem]
          unfold os_remove
          rw [if_pos hmem]
          simp
        · rw [if_neg hmem]
          simp
    · rw [validation_best_update_le e p s hgt]
      simp
  · intro q hgt hq hmem
    unfold validation_best_update
    rw [if_pos hgt]
    split
    · rename_i hq0
      rw [hq] at hq0
    · rename_i q' hq'
      rw [hq] at hq'
      have hqq := Option.some.inj hq'
      subst hqq
      rw [if_neg hmem]

/-- Witness for C5's amended statement at the stale-path state. -/
theorem c5_deletion_guarded_witness :
    validation_best_update 2 35 ⟨30, some (1, 30), []⟩ =
      some ⟨35, some (2, 35), [] ++ [(2, 35)]⟩ :=
  (c5_deletion_guarded 2 35 ⟨30, some (1, 30), []⟩).2 (1, 30) (by norm_num) rfl (by simp)

/-- C8: on resume, the model state dict is loaded unconditionally; optimizer
state, scheduler state and the start epoch (checkpoint epoch plus one) are
restored together exactly when the bundle has all three of `optimizer`,
`lr_scheduler` and `epoch`; if any is missing, none of the three changes. -/
theorem c8_resume_atomic_group (ck : CkptBundle) (s : ResumeState) :
    (resume_restore ck s).net_sd = ck.model ∧
    (∀ (o l : List ℚ) (e : Nat), ck.optimizer = some o → ck.lr_scheduler = some l →
        ck.epoch = some e → resume_restore ck s = ⟨ck.model, o, l, e + 1⟩) ∧
    ((ck.optimizer = none ∨ ck.lr_scheduler = none ∨ ck.epoch = none) →
        resume_restore ck s = ⟨ck.model, s.optim_sd, s.sched_sd, s.start_epoch⟩) := by
  obtain ⟨mo, oo, lo, eo⟩ := ck
  refine ⟨?_, ?_, ?_⟩
  · cases oo <;> cases lo <;> cases eo <;> simp [resume_restore]
  · intro o l e ho hl he
    simp only at ho hl he
    subst ho
    subst hl
    subst he
    simp [resume_restore]
  · intro hcase
    simp only at hcase
    rcases hcase with ho | hl | he
    · subst ho
      cases lo <;> cases eo <;> simp [resume_restore]
    · subst hl
      cases oo <;> cases eo <;> simp [resume_restore]
    · subst he
      cases oo <;> cases lo <;> simp [resume_restore]

/-- Witness for C8: a full bundle restores all three; a bundle missing
`optimizer` restores none of the three. -/
theorem c8_resume_atomic_group_witness :
    resume_restore ⟨[5], some [7], some [8], some 4⟩ ⟨[0], [1], [2], 0⟩ =
      ⟨[5], [7], [8], 5⟩ ∧
    resume_restore ⟨[5], none, some [8], some 4⟩ ⟨[0], [1], [2], 0⟩ =
      ⟨[5], [1], [2], 0⟩ :=
  ⟨(c8_resume_atomic_group ⟨[5], some [7], some [8], some 4⟩ ⟨[0], [1], [2], 0⟩).2.1
      [7] [8] 4 rfl rfl rfl,
   (c8_resume_atomic_group ⟨[5], none, some [8], some 4⟩ ⟨[0], [1], [2], 0⟩).2.2
      (Or.inl rfl)⟩

/-- C9: after the merge of lines 291-293, every output key not containing
`'image'` is bound in the batch to the model's output value, while output
keys containing `'image'` are not merged and batch keys not overwritten keep
their original bindings. -/
theorem c9_merge_non_image_outputs (o : PyDict Val) :
    ∀ b : PyDict Val, (o.map Prod.fst).Nodup →
    (∀ (k : String) (v : Val), dget o k = some v → strContains k "image" = false →
        dget (mergeOutputs b o) k = some v) ∧
    (∀ k : String, dget o k = none ∨ strContains k "image" = true →
        dget (mergeOutputs b o) k = dget b k) := by
  induction o with
  | nil =>
    intro b _
    refine ⟨?_, ?_⟩
    · intro k v hv _
      simp [dget] at hv
    · intro k _
      rfl
  | cons p rest ih =>
    intro b hnd
    obtain ⟨ky, value⟩ := p
    rw [List.map_cons] at hnd
    obtain ⟨hky, hnd'⟩ := List.nodup_cons.mp hnd
    have hmerge : mergeOutputs b ((ky, value) :: rest) =
        mergeOutputs (if strContains ky "image" then b else setKey b ky value) rest := rfl
    obtain ⟨ih1, ih2⟩ := ih (if strContains ky "image" then b else setKey b ky value) hnd'
    constructor
    · intro k v hv hk
      rw [hmerge]
      by_cases hkk : ky = k
      · subst hkk
        have hv' : value = v := by simpa [dget] using hv
        have hrest : dget rest ky = none := dget_eq_none_of_not_mem rest ky hky
        rw [ih2 ky (Or.inl hrest), if_neg (by simp [hk]), dget_setKey_self, hv']
      · have hv2 : dget rest k = some v := by simpa [dget, hkk] using hv
        exact ih1 k v hv2 hk
    · intro k hcase
      rw [hmerge]
      by_cases hkk : ky = k
      · subst hkk
        rcases hcase with hnone | himg
        · simp [dget] at hnone
        · have hrest : dget rest ky = none := dget_eq_none_of_not_mem rest ky hky
          rw [ih2 ky (Or.inl hrest), if_pos (by simp [himg])]
      · have hcase' : dget rest k = none ∨ strContains k "image" = true := by
          rcases hcase with hnone | himg
          · exact Or.inl (by simpa [dget, hkk] using hnone)
          · exact Or.inr himg
        rw [ih2 k hcase']
        by_cases himgky : strContains ky "image"
        · rw [if_pos himgky]
        · rw [if_neg himgky]
          exact dget_setKey_other b ky k value (fun hc => hkk hc.symm)

/-- Witness for C9: `"attn"` is merged, `"images"` is not. -/
theorem c9_merge_non_image_outputs_witness :
    dget (mergeOutputs [("masks", Val.tensor [1])]
        [("attn", Val.tensor [2]), ("images", Val.tensor [3])]) "attn" =
      some (Val.tensor [2]) ∧
    dget (mergeOutputs [("masks", Val.tensor [1])]
        [("attn", Val.tensor [2]), ("images", Val.tensor [3])]) "images" =
      dget [("masks", Val.tensor [1])] "images" :=
  ⟨(c9_merge_non_image_outputs [("attn", Val.tensor [2]), ("images", Val.tensor [3])]
      [("masks", Val.tensor [1])] (by decide)).1 "attn" (Val.tensor [2])
      (by decide) (by decide),
   (c9_merge_non_image_outputs [("attn", Val.tensor [2]), ("images", Val.tensor [3])]
      [("masks", Val.tensor [1])] (by decide)).2 "images" (Or.inr (by decide))⟩

/-- C10: the constructor makes the training-metric list empty whatever the
metrics argument (configured metrics reach only the validation list), the
emptiness is preserved by every `batch_forward` (in training mode with zero
metric updates; a validation pass never touches it), and the training epoch
performs no metric resets, updates or epoch-value logs: its end-of-epoch
sink writes are exactly the per-term and overall loss scalars. -/
theorem c10_train_metrics_always_empty :
    (∀ metrics avm : Option (List Metric), (initMetrics metrics avm).1 = []) ∧
    (∀ (tr : Trainer) (bd : PyDict Val) (r : StepOut) (tr2 : Trainer),
        tr.train_metrics = [] → batch_forward tr bd false = some (r, tr2) →
        tr2.train_metrics = [] ∧ tr2.val_metrics = tr.val_metrics) ∧
    (∀ (tr : Trainer) (bd : PyDict Val) (r : StepOut) (tr2 : Trainer),
        batch_forward tr bd true = some (r, tr2) →
        tr2.train_metrics = tr.train_metrics) ∧
    (∀ (tr : Trainer) (bs : List (PyDict Val)) (trF : Trainer)
        (lg : PyDict (List ℚ)) (l : ℚ),
        tr.train_metrics = [] → training_run tr bs = some (trF, lg, l) →
        trF.train_metrics = [] ∧
        trainingEpochEndLogs tr bs =
          some ((lg.map fun p => (p.1, qmean p.2)) ++ [("overall", l)])) := by
  refine ⟨?_, ?_, ?_, ?_⟩
  · intro metrics avm
    cases metrics <;> cases avm <;> rfl
  · intro tr bd r tr2 he h
    exact batch_forward_false_nil_metrics tr bd r tr2 he h
  · intro tr bd r tr2 h
    obtain ⟨_, ms, _, htr2⟩ := batch_forward_parts tr bd true r tr2 h
    rw [if_pos rfl] at htr2
    subst htr2
    rfl
  · intro tr bs trF lg l he h
    have hF : trF.train_metrics = [] := by
      have := trainingLoop_nil_metrics bs
        { tr with train_metrics := resetMetrics tr.train_metrics } (trF, lg, l)
        (by simp [resetMetrics, he]) h
      exact this
    refine ⟨hF, ?_⟩
    unfold trainingEpochEndLogs
    rw [show training_run tr bs = some (trF, lg, l) from h]
    simp [hF]

/-- Witness for C10 at concrete inputs. -/
theorem c10_train_metrics_always_empty_witness :
    (initMetrics (some []) none).1 = [] ∧ wTrainer.train_metrics = [] :=
  ⟨c10_train_metrics_always_empty.1 (some []) none,
   (c10_train_metrics_always_empty.2.1 wTrainer wBatch wStepTrain wTrainer rfl (by
      simp [batch_forward, bfPure, wTrainer, wNet, wBatch, wStepTrain, add_loss, wCfg, wCrit,
        dget, cfgWeight, modeCfg, fetchVals, qmean, logAppend, mergeOutputs, updateMetrics,
        Option.bind]
      norm_num)).1⟩

/-- C4 counterexample: two training batches whose single enabled loss term
evaluates to 1 then 3.  The epoch mean of the term (and of the overall loss)
is 2, but the end-of-epoch sink writes carry the LAST batch's values, 3 —
so the logged values are not the epoch averages the claim asserts. -/
theorem c4_counterexample :
    trainingEpochEndLogs wTrainerT [wBatchT 1, wBatchT 3] =
      some [("pixel_loss", 3), ("overall", 3)] ∧
    (batch_forward wTrainerT (wBatchT 1) false).map (fun p => (p.1.losses_logging, p.1.loss)) =
      some ([("pixel_loss", [1])], 1) ∧
    (batch_forward wTrainerT (wBatchT 3) false).map (fun p => (p.1.losses_logging, p.1.loss)) =
      some ([("pixel_loss", [3])], 3) ∧
    qmean [1, 3] = 2 ∧ (3 : ℚ) ≠ 2 := by
  refine ⟨?_, ?_, ?_, ?_, by norm_num⟩
  · simp [trainingEpochEndLogs, training_run, trainingLoop, resetMetrics, optimApply,
      batch_forward, bfPure, wTrainerT, wNet, wBatchT, wBatch, add_loss, wCfgTargets,
      wCritTargets, valData, dget, cfgWeight, modeCfg, fetchVals, qmean, logAppend,
      mergeOutputs, updateMetrics, Option.bind]
  · simp [batch_forward, bfPure, wTrainerT, wNet, wBatchT, wBatch, add_loss, wCfgTargets,
      wCritTargets, valData, dget, cfgWeight, modeCfg, fetchVals, qmean, logAppend,
      mergeOutputs, updateMetrics, Option.bind]
  · simp [batch_forward, bfPure, wTrainerT, wNet, wBatchT, wBatch, add_loss, wCfgTargets,
      wCritTargets, valData, dget, cfgWeight, modeCfg, fetchVals, qmean, logAppend,
      mergeOutputs, updateMetrics, Option.bind]
  · simp [qmean]
    norm_num

/-- C4 amended: after the training epoch, the primary process writes to the
sink, for each loss term, the mean of that term's entries in the LAST
batch's log mapping (one value per term, hence the last batch's value) and
the last batch's loss as `overall` — not epoch averages — followed by the
training-metric epoch values. -/
theorem c4_end_logs_are_last_batch (tr : Trainer) (bs : List (PyDict Val)) (b : PyDict Val) :
    trainingEpochEndLogs tr (bs ++ [b]) =
      match trainingLoopTr { tr with train_metrics := resetMetrics tr.train_metrics } bs with
      | none => none
      | some trL =>
        match batch_forward trL b false with
        | none => none
        | some (r, tr2) =>
          some (((r.losses_logging.map fun p => (p.1, qmean p.2)) ++ [("overall", r.loss)])
                ++ (optimApply tr2).train_metrics.map
                    fun m => ("epoch_" ++ m.name, m.epochFn m.state)) := by
  unfold trainingEpochEndLogs training_run
  rw [trainingLoop_append]
  cases h1 : trainingLoopTr { tr with train_metrics := resetMetrics tr.train_metrics } bs with
  | none => simp
  | some trL =>
    cases h2 : batch_forward trL b false with
    | none => simp [h2]
    | some p =>
      obtain ⟨r, tr2⟩ := p
      simp [h2]

end AICT
